/-
Verification of the arka-plugins audit-log ledger core.

This file gives a shallow embedding of the plugin-audit-log service
(service.ts), its in-memory storage backend (storage/memory.ts), and the
relevant parts of the PostgreSQL backend (storage/postgres.ts), and proves
the spec claims about them.

Modelling conventions:
- Record ids are Nats drawn from a fresh counter; this models generateId,
  whose only property used by the code is uniqueness of generated ids.
- Timestamps are Nats drawn from a strictly increasing clock; this models
  successive Date.toISOString values, which are lexicographically ordered
  strings for a single-writer ledger.  The source compares them with
  String comparison, which agrees with the Nat order.
- The composition JSON.stringify followed by createHash(algorithm) is an
  external deterministic function of the serialized fields; it is modelled
  as an explicit function parameter H : HashContent -> String.  The only
  properties the code relies on are determinism (free, since H is a
  function) and the absence of collisions between specific inputs, which
  appears as an explicit hypothesis where a claim needs it.
- Similarly the evidence content hash createHash over the base64 encoding
  of the content bytes is modelled as CH : String -> String, where the
  String argument models the raw byte content.
- JavaScript truthiness of option-typed query fields is modelled
  explicitly: a missing field or an empty string / zero skips the filter,
  exactly as the source's `if (query.field)` guards do.
-/
import Mathlib

namespace ArkaAudit

/-! ## Data model (types.ts / @arka/types) -/

/-- Actor identity attached to an audit record. -/
structure AuditActor where
  type : String
  id : String
  name : Option String
  ipAddress : Option String
deriving DecidableEq, Repr

/-- Named correlation axes; all optional. -/
structure AuditCorrelationIds where
  transactionId : Option String := none
  entityId : Option String := none
  ruleId : Option String := none
  alertId : Option String := none
  requestId : Option String := none
  sessionId : Option String := none
  externalId : Option String := none
deriving DecidableEq, Repr

/-- The immutable audit record (AuditRecord in @arka/types). -/
structure AuditRecord where
  id : Nat
  timestamp : Nat
  eventType : String
  actor : Option AuditActor
  correlationIds : AuditCorrelationIds
  category : String
  severity : String
  description : String
  data : String
  evidence : Option String
  previousHash : Option String
  recordHash : String
deriving DecidableEq, Repr

/-- The canonical field set hashed by recordEvent/verifyIntegrity:
JSON.stringify of exactly these ten fields, in this fixed key order. -/
structure HashContent where
  id : Nat
  timestamp : Nat
  eventType : String
  actor : Option AuditActor
  correlationIds : AuditCorrelationIds
  category : String
  severity : String
  description : String
  data : String
  previousHash : Option String
deriving DecidableEq, Repr

/-- The hash input recomputed from a stored record by verifyIntegrity. -/
def contentOf (r : AuditRecord) : HashContent :=
  { id := r.id, timestamp := r.timestamp, eventType := r.eventType,
    actor := r.actor, correlationIds := r.correlationIds,
    category := r.category, severity := r.severity,
    description := r.description, data := r.data,
    previousHash := r.previousHash }

/-- Caller input to recordEvent: the record minus id/timestamp/hashes. -/
structure AuditRecordInput where
  eventType : String
  actor : Option AuditActor
  correlationIds : AuditCorrelationIds
  category : String
  severity : String
  description : String
  data : String
  evidence : Option String := none
deriving DecidableEq, Repr

/-- Query filter (AuditQuery in @arka/types). -/
structure AuditQuery where
  eventTypes : Option (List String) := none
  categories : Option (List String) := none
  severities : Option (List String) := none
  actorId : Option String := none
  correlationIds : Option AuditCorrelationIds := none
  fromTimestamp : Option Nat := none
  toTimestamp : Option Nat := none
  orderBy : Option String := none
  limit : Option Nat := none
  offset : Option Nat := none
deriving DecidableEq, Repr

/-- Result of verifyIntegrity (IntegrityCheckResult in types.ts). -/
structure IntegrityCheckResult where
  valid : Bool
  recordsChecked : Nat
  firstInvalidId : Option Nat
  error : Option String
deriving DecidableEq, Repr

/-- Service configuration (AuditLogConfig); fields the model consumes. -/
structure AuditConfig where
  enableHashChaining : Bool := true
  enableEvidenceStorage : Bool := true
  maxEvidenceSize : Option Nat := some (10 * 1024 * 1024)
  batchInsertSize : Option Nat := some 100
deriving DecidableEq, Repr

/-! ## JavaScript-semantics helpers -/

/-- Models the JavaScript expression `o || d` for a possibly missing
number: undefined and 0 both fall back to the default. -/
def jsOr (o : Option Nat) (d : Nat) : Nat :=
  match o with
  | none => d
  | some n => if n = 0 then d else n

/-- Models JavaScript truthiness of a possibly missing string: undefined
and the empty string are falsy. -/
def strTruthy (o : Option String) : Option String :=
  match o with
  | none => none
  | some s => if s = "" then none else some s

/-- Replace the element at an index, leaving the rest of the list
unchanged (used to model tampering with one persisted record). -/
def modifyIdx (f : α → α) : Nat → List α → List α
  | _, [] => []
  | 0, x :: xs => f x :: xs
  | n + 1, x :: xs => x :: modifyIdx f n xs

/-! ## In-memory storage backend (storage/memory.ts)

A JavaScript Map is an insertion-ordered association list whose `set`
replaces the value in place when the key is already present. -/

/-- Map.set semantics on an insertion-ordered association list. -/
def mapSet (k : κ) (v : α) (m : List (κ × α)) [DecidableEq κ] : List (κ × α) :=
  if m.any (fun p => p.1 = k) then
    m.map (fun p => if p.1 = k then (k, v) else p)
  else
    m ++ [(k, v)]

/-- Map.get semantics. -/
def mapGet (k : κ) (m : List (κ × α)) [DecidableEq κ] : Option α :=
  (m.find? (fun p => p.1 = k)).map (fun p => p.2)

/-- InMemoryAuditStorage: records Map plus insertion-order index. -/
structure MemoryStorage where
  records : List (Nat × AuditRecord)
  orderedIds : List Nat
deriving DecidableEq, Repr

def MemoryStorage.empty : MemoryStorage := { records := [], orderedIds := [] }

/-- InMemoryAuditStorage.insert. -/
def memInsert (r : AuditRecord) (s : MemoryStorage) : MemoryStorage :=
  { records := mapSet r.id r s.records, orderedIds := s.orderedIds ++ [r.id] }

/-- InMemoryAuditStorage.insertBatch: sequential inserts. -/
def memInsertBatch (rs : List AuditRecord) (s : MemoryStorage) : MemoryStorage :=
  rs.foldl (fun s r => memInsert r s) s

/-- Array.from(records.values()): values in insertion order. -/
def memValues (s : MemoryStorage) : List AuditRecord :=
  s.records.map (fun p => p.2)

/-- InMemoryAuditStorage.get. -/
def memGet (id : Nat) (s : MemoryStorage) : Option AuditRecord :=
  mapGet id s.records

/-! ### query(query): the filter pipeline, one stage per source filter -/

/-- Filter on event types; skipped when the list is missing or empty
(`query.eventTypes?.length` is falsy). -/
def filterEventTypes (q : AuditQuery) (l : List AuditRecord) : List AuditRecord :=
  match q.eventTypes with
  | some ts => if ts.isEmpty then l else l.filter (fun r => ts.contains r.eventType)
  | none => l

/-- Filter on categories. -/
def filterCategories (q : AuditQuery) (l : List AuditRecord) : List AuditRecord :=
  match q.categories with
  | some cs => if cs.isEmpty then l else l.filter (fun r => cs.contains r.category)
  | none => l

/-- Filter on severities. -/
def filterSeverities (q : AuditQuery) (l : List AuditRecord) : List AuditRecord :=
  match q.severities with
  | some ss => if ss.isEmpty then l else l.filter (fun r => ss.contains r.severity)
  | none => l

/-- Filter on actor id (`r.actor?.id === query.actorId`). -/
def filterActor (q : AuditQuery) (l : List AuditRecord) : List AuditRecord :=
  match strTruthy q.actorId with
  | some a => l.filter (fun r => match r.actor with
      | some act => act.id = a
      | none => false)
  | none => l

/-- The correlation-id predicate of the source: only the transaction,
entity, rule, alert and request axes are checked; sessionId and
externalId are never consulted. -/
def corrMatch (c : AuditCorrelationIds) (r : AuditRecord) : Bool :=
  (match strTruthy c.transactionId with
   | some v => r.correlationIds.transactionId = some v
   | none => true) &&
  (match strTruthy c.entityId with
   | some v => r.correlationIds.entityId = some v
   | none => true) &&
  (match strTruthy c.ruleId with
   | some v => r.correlationIds.ruleId = some v
   | none => true) &&
  (match strTruthy c.alertId with
   | some v => r.correlationIds.alertId = some v
   | none => true) &&
  (match strTruthy c.requestId with
   | some v => r.correlationIds.requestId = some v
   | none => true)

/-- Filter on correlation ids (applied whenever the filter object is
present; an object is always truthy in JavaScript). -/
def filterCorr (q : AuditQuery) (l : List AuditRecord) : List AuditRecord :=
  match q.correlationIds with
  | some c => l.filter (corrMatch c)
  | none => l

/-- Time-range filter: fromTimestamp is inclusive. -/
def filterFrom (q : AuditQuery) (l : List AuditRecord) : List AuditRecord :=
  match q.fromTimestamp with
  | some t => l.filter (fun r => t ≤ r.timestamp)
  | none => l

/-- Time-range filter: toTimestamp is exclusive. -/
def filterTo (q : AuditQuery) (l : List AuditRecord) : List AuditRecord :=
  match q.toTimestamp with
  | some t => l.filter (fun r => r.timestamp < t)
  | none => l

/-- All filter stages, in source order. -/
def filteredRecords (q : AuditQuery) (l : List AuditRecord) : List AuditRecord :=
  filterTo q (filterFrom q (filterCorr q (filterActor q
    (filterSeverities q (filterCategories q (filterEventTypes q l))))))

/-- Ascending comparator (a.timestamp.localeCompare(b.timestamp)). -/
def ascLe (a b : AuditRecord) : Bool := a.timestamp ≤ b.timestamp

/-- Descending comparator (b.timestamp.localeCompare(a.timestamp)). -/
def descLe (a b : AuditRecord) : Bool := b.timestamp ≤ a.timestamp

/-- The sort step: ascending for timestamp_asc, descending otherwise.
Array.prototype.sort is a stable sort, modelled by mergeSort. -/
def sortRecords (q : AuditQuery) (l : List AuditRecord) : List AuditRecord :=
  if q.orderBy = some "timestamp_asc" then l.mergeSort ascLe else l.mergeSort descLe

/-- results.slice(offset, offset + limit) with the source defaults
`offset || 0` and `limit || 100`. -/
def paginate (q : AuditQuery) (l : List AuditRecord) : List AuditRecord :=
  (l.drop (jsOr q.offset 0)).take (jsOr q.limit 100)

/-- The sorted, filtered match set before pagination. -/
def matchSet (q : AuditQuery) (s : MemoryStorage) : List AuditRecord :=
  sortRecords q (filteredRecords q (memValues s))

/-- InMemoryAuditStorage.query. -/
def memQuery (q : AuditQuery) (s : MemoryStorage) : List AuditRecord :=
  paginate q (matchSet q s)

/-! ## Evidence store (InMemoryEvidenceStorage) -/

/-- Evidence metadata captured at store time
(Omit of EvidenceAttachment without storageRef). -/
structure EvidenceMeta where
  id : Nat
  type : String
  mimeType : String
  filename : Option String
  size : Nat
  contentHash : String
  capturedAt : Nat
  description : Option String
deriving DecidableEq, Repr

/-- EvidenceAttachment: metadata plus the opaque storage locator. -/
structure EvidenceAttachment where
  id : Nat
  type : String
  mimeType : String
  filename : Option String
  size : Nat
  contentHash : String
  capturedAt : Nat
  description : Option String
  storageRef : String
deriving DecidableEq, Repr

/-- EvidenceData as built by getEvidence (content plus the metadata
fields the source reconstructs). -/
structure EvidenceData where
  id : Nat
  type : String
  mimeType : String
  size : Nat
  contentHash : String
  storageRef : String
  capturedAt : Nat
  content : String
deriving DecidableEq, Repr

/-- One stored evidence entry: content bytes plus store-time metadata. -/
structure EvidenceEntry where
  content : String
  meta : EvidenceMeta
deriving DecidableEq, Repr

/-- InMemoryEvidenceStorage: a Map from storageRef to entry. -/
structure EvidenceStore where
  items : List (String × EvidenceEntry)
deriving DecidableEq, Repr

def EvidenceStore.empty : EvidenceStore := { items := [] }

/-- InMemoryEvidenceStorage.store. -/
def evStore (id : Nat) (content : String) (meta : EvidenceMeta)
    (s : EvidenceStore) : String × EvidenceStore :=
  let ref := "memory://" ++ toString id
  (ref, { items := mapSet ref { content := content, meta := meta } s.items })

/-- InMemoryEvidenceStorage.retrieve. -/
def evRetrieve (ref : String) (s : EvidenceStore) : Option String :=
  (mapGet ref s.items).map (fun e => e.content)

/-- InMemoryEvidenceStorage.count. -/
def evCount (s : EvidenceStore) : Nat := s.items.length

/-- InMemoryEvidenceStorage.getTotalSize. -/
def evTotalSize (s : EvidenceStore) : Nat :=
  (s.items.map (fun p => p.2.content.length)).sum

/-! ## Ledger service (AuditLogServiceImpl) -/

/-- Mutable service state: chain head, pending batch, both storages, and
the id / clock counters that model generateId and the wall clock. -/
structure SvcState where
  cfg : AuditConfig
  lastHash : Option String
  batchQueue : List AuditRecord
  storage : MemoryStorage
  evidence : EvidenceStore
  nextId : Nat
  clock : Nat
deriving DecidableEq, Repr

/-- State of a freshly initialized service on an empty ledger: init loads
getLastRecord() from empty storage, leaving lastHash null. -/
def freshState (cfg : AuditConfig) : SvcState :=
  { cfg := cfg, lastHash := none, batchQueue := [],
    storage := MemoryStorage.empty, evidence := EvidenceStore.empty,
    nextId := 0, clock := 0 }

/-- flushBatch against the (infallible) in-memory backend: drain the
queue into storage. -/
def flushBatch (st : SvcState) : SvcState :=
  if st.batchQueue.isEmpty then st
  else { st with batchQueue := [],
                 storage := memInsertBatch st.batchQueue st.storage }

/-- The canonical hash input of a new record: current id counter, the
wall clock, the caller fields, and the current chain head (the source
always puts this.lastHash in the hashed object). -/
def newContent (input : AuditRecordInput) (st : SvcState) : HashContent :=
  { id := st.nextId, timestamp := st.clock, eventType := input.eventType,
    actor := input.actor, correlationIds := input.correlationIds,
    category := input.category, severity := input.severity,
    description := input.description, data := input.data,
    previousHash := st.lastHash }

/-- The record built by recordEvent: its stored previousHash is the
chain head when chaining is enabled, null otherwise. -/
def newRecord (H : HashContent → String) (input : AuditRecordInput)
    (st : SvcState) : AuditRecord :=
  { id := st.nextId, timestamp := st.clock, eventType := input.eventType,
    actor := input.actor, correlationIds := input.correlationIds,
    category := input.category, severity := input.severity,
    description := input.description, data := input.data,
    evidence := input.evidence,
    previousHash := if st.cfg.enableHashChaining then st.lastHash else none,
    recordHash := H (newContent input st) }

/-- The state after the critical section of recordEvent: the chain head
is advanced (when chaining), the record is appended to the pending
batch, and the id counter and clock move on. -/
def pushState (H : HashContent → String) (input : AuditRecordInput)
    (st : SvcState) : SvcState :=
  { st with
    lastHash := if st.cfg.enableHashChaining
                then some (H (newContent input st)) else st.lastHash,
    batchQueue := st.batchQueue ++ [newRecord H input st],
    nextId := st.nextId + 1,
    clock := st.clock + 1 }

/-- recordEvent: assign id and timestamp, hash the canonical fields with
the current chain head, advance the head, queue the record, and flush
when the batch reaches the configured size. -/
def recordEvent (H : HashContent → String) (input : AuditRecordInput)
    (st : SvcState) : AuditRecord × SvcState :=
  let st1 := pushState H input st
  (newRecord H input st,
   if jsOr st.cfg.batchInsertSize 100 ≤ st1.batchQueue.length
   then flushBatch st1 else st1)

/-- Run a sequence of recordEvent calls (single-writer discipline). -/
def runEvents (H : HashContent → String) (inputs : List AuditRecordInput)
    (st : SvcState) : SvcState :=
  inputs.foldl (fun s i => (recordEvent H i s).2) st

/-- queryEvents: flush the pending batch, then read through storage. -/
def queryEvents (q : AuditQuery) (st : SvcState) : List AuditRecord × SvcState :=
  let st := flushBatch st
  (memQuery q st.storage, st)

/-- getRecord: consult the pending batch first, then storage; the single
read path that does not force a flush. -/
def getRecord (id : Nat) (st : SvcState) : Option AuditRecord :=
  match st.batchQueue.find? (fun r => r.id = id) with
  | some r => some r
  | none => memGet id st.storage

/-- The chain-walk of verifyIntegrity: track the expected previous hash,
report the first record whose link or recomputed hash fails. -/
def verifyLoop (H : HashContent → String) :
    Option String → List AuditRecord → Option Nat
  | _, [] => none
  | prev, r :: rs =>
    if prev ≠ none ∧ r.previousHash ≠ prev then some r.id
    else if H (contentOf r) ≠ r.recordHash then some r.id
    else verifyLoop H (some r.recordHash) rs

/-- verifyIntegrity with no bounds: no-op success when chaining is off;
otherwise flush, fetch the chain as a timestamp-ascending query with
limit 10000, and walk it. -/
def verifyIntegrity (H : HashContent → String) (st : SvcState) :
    IntegrityCheckResult × SvcState :=
  if st.cfg.enableHashChaining = false then
    ({ valid := true, recordsChecked := 0, firstInvalidId := none,
       error := some "Hash chaining is disabled" }, st)
  else
    let st := flushBatch st
    let records := memQuery
      { orderBy := some "timestamp_asc", limit := some 10000 } st.storage
    let bad := verifyLoop H none records
    ({ valid := bad.isNone, recordsChecked := records.length,
       firstInvalidId := bad, error := none }, st)

/-- exportEvents page loop: repeated fixed-size page fetches (page size
100) until a short page; each page overrides the filter's limit/offset. -/
def exportLoop (q : AuditQuery) (s : MemoryStorage) (offset : Nat) :
    List AuditRecord :=
  if h : (memQuery { q with limit := some 100, offset := some offset } s).length = 100 then
    memQuery { q with limit := some 100, offset := some offset } s
      ++ exportLoop q s (offset + 100)
  else
    memQuery { q with limit := some 100, offset := some offset } s
termination_by (matchSet q s).length - offset
decreasing_by
  have hpage : (memQuery { q with limit := some 100, offset := some offset } s)
      = ((matchSet q s).drop offset).take 100 := by
    have hm : matchSet { q with limit := some 100, offset := some offset } s
        = matchSet q s := rfl
    simp only [memQuery, hm, paginate]
    by_cases h0 : offset = 0 <;> simp [jsOr, h0]
  rw [hpage] at h
  have hlen : 100 ≤ (matchSet q s).length - offset := by
    have := List.length_take 100 ((matchSet q s).drop offset)
    rw [h] at this
    simp [List.length_drop] at this
    omega
  omega

/-- exportEvents: flush, then yield pages from offset 0; the model
collects the yielded sequence into a list. -/
def exportEvents (q : AuditQuery) (st : SvcState) :
    List AuditRecord × SvcState :=
  let st := flushBatch st
  (exportLoop q st.storage 0, st)

/-- Caller input for storeEvidence; content models the raw bytes. -/
structure EvidenceInput where
  type : String
  mimeType : String
  filename : Option String := none
  content : String
  description : Option String := none
deriving DecidableEq, Repr

/-- storeEvidence: reject when disabled or when the content exceeds the
configured maximum, otherwise hash the content and delegate to the
evidence store. -/
def storeEvidence (CH : String → String) (input : EvidenceInput)
    (st : SvcState) : Except String EvidenceAttachment × SvcState :=
  if st.cfg.enableEvidenceStorage = false then
    (Except.error "Evidence storage is disabled", st)
  else if jsOr st.cfg.maxEvidenceSize (10 * 1024 * 1024) < input.content.length then
    (Except.error "Evidence size exceeds maximum", st)
  else
    let id := st.nextId
    let contentHash := CH input.content
    let meta : EvidenceMeta :=
      { id := id, type := input.type, mimeType := input.mimeType,
        filename := input.filename, size := input.content.length,
        contentHash := contentHash, capturedAt := st.clock,
        description := input.description }
    let stored := evStore id input.content meta st.evidence
    let att : EvidenceAttachment :=
      { id := id, type := input.type, mimeType := input.mimeType,
        filename := input.filename, size := input.content.length,
        contentHash := contentHash, capturedAt := st.clock,
        description := input.description, storageRef := stored.1 }
    (Except.ok att, { st with nextId := id + 1, evidence := stored.2 })

/-- getEvidence: retrieve by the reconstructed memory locator and rebuild
placeholder metadata, recomputing the content hash. -/
def getEvidence (CH : String → String) (id : Nat) (st : SvcState) :
    Option EvidenceData :=
  match evRetrieve ("memory://" ++ toString id) st.evidence with
  | none => none
  | some content => some
    { id := id, type := "other", mimeType := "application/octet-stream",
      size := content.length, contentHash := CH content,
      storageRef := "memory://" ++ toString id, capturedAt := st.clock,
      content := content }

/-- The evidence-count component of getStats: flush, then count through
the evidence backend. -/
def statsEvidenceCount (st : SvcState) : Nat := evCount (flushBatch st).evidence

/-! ## flushBatch over an arbitrary (fallible) storage backend

The service's flushBatch is backend-generic: splice the whole queue, try
insertBatch, and on failure unshift the batch back to the front and
rethrow.  The backend is a state type sigma with an insertBatch that
either succeeds or fails, in both cases yielding the storage state it
leaves behind (the in-memory backend never fails; the relational one may
fail partway through, see the batch model below). -/

/-- Service state over an abstract storage backend. -/
structure GenSvc (σ : Type) where
  lastHash : Option String
  batchQueue : List AuditRecord
  storage : σ
deriving Repr

/-- flushBatch: on failure, the splice is undone by unshifting the batch
onto the (now empty) queue and the error is rethrown to the invoker. -/
def flushBatchG (ins : σ → List AuditRecord → Except σ σ)
    (st : GenSvc σ) : Except Unit Unit × GenSvc σ :=
  if st.batchQueue.isEmpty then (Except.ok (), st)
  else
    let batch := st.batchQueue
    match ins st.storage batch with
    | Except.ok s2 =>
      (Except.ok (), { st with batchQueue := [], storage := s2 })
    | Except.error s2 =>
      (Except.error (), { st with batchQueue := batch ++ [], storage := s2 })

/-! ## PostgresAuditStorage.insertBatch (storage/postgres.ts)

The source checks a client out of the pool and issues BEGIN / COMMIT /
ROLLBACK on that client, but each row INSERT is executed through
this.insert, which queries the pool itself.  A pool query outside a
transaction runs on some pooled connection in autocommit mode, so every
row that was inserted before a failure is already committed, and the
ROLLBACK only discards the (empty) transaction of the checked-out
client.  The model keeps the committed table rows and the checked-out
client's open transaction buffer separate to reflect this. -/

/-- Relational backend state: committed rows, in insertion order. -/
structure PgState where
  table : List AuditRecord
deriving DecidableEq, Repr

/-- One row INSERT issued through the pool (this.insert): autocommit on
some pooled connection.  failsAt injects a failure for specific rows. -/
def pgPoolInsert (failsAt : AuditRecord → Bool) (r : AuditRecord)
    (st : PgState) : Except PgState PgState :=
  if failsAt r then Except.error st
  else Except.ok { table := st.table ++ [r] }

/-- The loop body of insertBatch: run the row inserts through the pool;
stop at the first failure.  txBuffer is the checked-out client's open
transaction, which never receives any statement. -/
def pgBatchLoop (failsAt : AuditRecord → Bool) :
    List AuditRecord → PgState → Except PgState PgState
  | [], st => Except.ok st
  | r :: rs, st =>
    match pgPoolInsert failsAt r st with
    | Except.ok st2 => pgBatchLoop failsAt rs st2
    | Except.error st2 => Except.error st2

/-- PostgresAuditStorage.insertBatch: BEGIN on the checked-out client
(opens an empty transaction there), run the row inserts through the
pool, then COMMIT, or on failure ROLLBACK, on the checked-out client.
COMMIT and ROLLBACK only affect that client's empty transaction, so the
rows already inserted through the pool stay committed either way. -/
def pgInsertBatch (failsAt : AuditRecord → Bool) (records : List AuditRecord)
    (st : PgState) : Except PgState PgState :=
  let txBuffer : List AuditRecord := []
  match pgBatchLoop failsAt records st with
  | Except.ok st2 =>
    -- COMMIT on the checked-out client: commits txBuffer, which is empty.
    Except.ok { st2 with table := st2.table ++ txBuffer }
  | Except.error st2 =>
    -- ROLLBACK on the checked-out client: discards only txBuffer.
    Except.error st2

/-- The LIMIT/OFFSET clause interpolated into the relational query
(postgres.ts lines 202-209): `query.limit || 100` and
`query.offset || 0`. -/
def pgLimitClause (q : AuditQuery) : String :=
  "LIMIT " ++ toString (jsOr q.limit 100) ++ " OFFSET " ++ toString (jsOr q.offset 0)

/-! ## Derived notions used by the theorems -/

/-- All records in creation order: persisted values followed by the
pending batch. -/
def chainAll (st : SvcState) : List AuditRecord :=
  memValues st.storage ++ st.batchQueue

/-- The hash-chain well-formedness predicate: starting from an expected
previous hash, every record links to its predecessor and carries the
hash of its own canonical fields. -/
def goodChain (H : HashContent → String) :
    Option String → List AuditRecord → Prop
  | _, [] => True
  | p, r :: rs =>
    r.previousHash = p ∧ r.recordHash = H (contentOf r) ∧
      goodChain H (some r.recordHash) rs

/-- The chain head after a record list, seeded with p. -/
def chainEnd (p : Option String) (l : List AuditRecord) : Option String :=
  match l.getLast? with
  | some r => some r.recordHash
  | none => p

/-- Tamper with the stored record at a given insertion position, leaving
its Map key and the insertion-order index unchanged. -/
def tamperStorage (i : Nat) (f : AuditRecord → AuditRecord)
    (s : MemoryStorage) : MemoryStorage :=
  { s with records := modifyIdx (fun p => (p.1, f p.2)) i s.records }

/-- Tampering functions for the three fields named by the spec. -/
def setData (d : String) (r : AuditRecord) : AuditRecord := { r with data := d }

def setDescription (d : String) (r : AuditRecord) : AuditRecord :=
  { r with description := d }

def setRecordHash (h : String) (r : AuditRecord) : AuditRecord :=
  { r with recordHash := h }

/-- Freshness of the id counter: every queued record and every storage
key was generated before the current counter value. -/
def WFids (st : SvcState) : Prop :=
  (∀ r ∈ st.batchQueue, r.id < st.nextId) ∧
  (∀ p ∈ st.storage.records, p.1 < st.nextId)

/-- The reachable-state invariant of a chained single-writer ledger. -/
structure Inv (H : HashContent → String) (st : SvcState) : Prop where
  chain : goodChain H none (chainAll st)
  head : st.lastHash = chainEnd none (chainAll st)
  tsStrict : (chainAll st).Pairwise (fun a b => a.timestamp < b.timestamp)
  tsBound : ∀ r ∈ chainAll st, r.timestamp < st.clock
  idStrict : (chainAll st).Pairwise (fun a b => a.id < b.id)
  idBound : ∀ r ∈ chainAll st, r.id < st.nextId
  keyBound : ∀ p ∈ st.storage.records, p.1 < st.nextId
  keyVal : ∀ p ∈ st.storage.records, p.1 = p.2.id

/-- The constraints of a query filter that the in-memory backend
actually enforces (all of them except the session and external
correlation axes), with the source's truthiness conventions. -/
def SatisfiesChecked (q : AuditQuery) (r : AuditRecord) : Prop :=
  (∀ ts, q.eventTypes = some ts → ts ≠ [] → r.eventType ∈ ts) ∧
  (∀ cs, q.categories = some cs → cs ≠ [] → r.category ∈ cs) ∧
  (∀ ss, q.severities = some ss → ss ≠ [] → r.severity ∈ ss) ∧
  (∀ a, strTruthy q.actorId = some a → ∃ act, r.actor = some act ∧ act.id = a) ∧
  (∀ c, q.correlationIds = some c →
    (∀ v, strTruthy c.transactionId = some v → r.correlationIds.transactionId = some v) ∧
    (∀ v, strTruthy c.entityId = some v → r.correlationIds.entityId = some v) ∧
    (∀ v, strTruthy c.ruleId = some v → r.correlationIds.ruleId = some v) ∧
    (∀ v, strTruthy c.alertId = some v → r.correlationIds.alertId = some v) ∧
    (∀ v, strTruthy c.requestId = some v → r.correlationIds.requestId = some v)) ∧
  (∀ t, q.fromTimestamp = some t → t ≤ r.timestamp) ∧
  (∀ t, q.toTimestamp = some t → r.timestamp < t)

/-! ## Concrete instances used by witnesses and counterexamples -/

/-- A concrete stand-in for JSON.stringify + createHash, used only to
instantiate witnesses; the claim theorems hold for arbitrary H. -/
def demoHash (c : HashContent) : String :=
  c.data ++ "|" ++ c.description ++ "|" ++ c.previousHash.getD "" ++ "|" ++ toString c.id

/-- The default configuration of the source. -/
def defCfg : AuditConfig := {}

/-- A plain event input. -/
def demoInput : AuditRecordInput :=
  { eventType := "custom", actor := none, correlationIds := {},
    category := "system", severity := "info", description := "d", data := "x" }

/-- An event input carrying a session correlation id. -/
def sessionInput : AuditRecordInput :=
  { demoInput with correlationIds := { sessionId := some "s1" } }

/-- A query filtering on a different session id. -/
def sessionQuery : AuditQuery :=
  { correlationIds := some { sessionId := some "other" } }

/-- A concrete persisted record with a given id and timestamp. -/
def demoRecord (n : Nat) : AuditRecord :=
  { id := n, timestamp := n, eventType := "custom", actor := none,
    correlationIds := {}, category := "system", severity := "info",
    description := "d", data := "x", evidence := none,
    previousHash := none, recordHash := "h" }

/-- A backend whose insertBatch always fails, leaving storage as it was. -/
def failIns (s : List AuditRecord) (_ : List AuditRecord) :
    Except (List AuditRecord) (List AuditRecord) := Except.error s

/-- A generic service state with two pending records. -/
def genState : GenSvc (List AuditRecord) :=
  { lastHash := some "h0", batchQueue := [demoRecord 0, demoRecord 1], storage := [] }

/-- Configuration with a 1024-byte evidence cap (spec scenario). -/
def smallCfg : AuditConfig := { maxEvidenceSize := some 1024 }

/-- 2048 bytes of evidence content (spec scenario). -/
def bigEvInput : EvidenceInput :=
  { type := "document", mimeType := "application/pdf",
    content := String.mk (List.replicate 2048 'a') }

/-- A small accepted evidence input. -/
def smallEvInput : EvidenceInput :=
  { type := "document", mimeType := "application/pdf", content := "hello" }

/-- The persisted records after running a trace of events on a fresh
ledger and flushing. -/
def traceRecords (H : HashContent → String) (cfg : AuditConfig)
    (inputs : List AuditRecordInput) : List AuditRecord :=
  memValues (flushBatch (runEvents H inputs (freshState cfg))).storage

/-- The result of an unbounded verifyIntegrity after tampering with the
persisted record at position i of such a trace. -/
def tamperedVerify (H : HashContent → String) (cfg : AuditConfig)
    (inputs : List AuditRecordInput) (i : Nat)
    (f : AuditRecord → AuditRecord) : IntegrityCheckResult :=
  let stF := flushBatch (runEvents H inputs (freshState cfg))
  (verifyIntegrity H { stF with storage := tamperStorage i f stF.storage }).1

/-- The first record produced on a fresh default ledger. -/
def rW : AuditRecord := (recordEvent demoHash demoInput (freshState defCfg)).1

/-! # Theorems -/

set_option maxRecDepth 2000

/-- C4: if the storage insertBatch call fails during a flush, the whole
batch is restored to the front of the pending queue in its original
order, the error is propagated to the flush invoker, and the in-memory
chain head lastHash is unchanged by the failure (the storage is left in
whatever state the failed backend call produced). -/
theorem flush_failure_requeues {σ : Type}
    (ins : σ → List AuditRecord → Except σ σ) (st : GenSvc σ) (s2 : σ)
    (hq : st.batchQueue ≠ [])
    (hf : ins st.storage st.batchQueue = Except.error s2) :
    flushBatchG ins st =
      (Except.error (),
       { lastHash := st.lastHash, batchQueue := st.batchQueue, storage := s2 }) := by
  unfold flushBatchG
  rw [if_neg (by simpa [List.isEmpty_iff] using hq)]
  simp [hf]

theorem flush_failure_requeues_witness :
    flushBatchG failIns genState =
      (Except.error (),
       { lastHash := some "h0", batchQueue := [demoRecord 0, demoRecord 1],
         storage := ([] : List AuditRecord) }) :=
  flush_failure_requeues failIns genState [] (by decide) rfl

/-- C3 (code bug): a relational insertBatch of two records whose second
INSERT fails leaves exactly the first record committed: neither all nor
none of the batch is persisted, because the row inserts run through the
pool in autocommit mode while BEGIN/ROLLBACK act on the separate
checked-out client. -/
theorem pg_insertBatch_partial_commit :
    pgInsertBatch (fun r => r.id == 1) [demoRecord 0, demoRecord 1] { table := [] }
        = Except.error { table := [demoRecord 0] } ∧
    ({ table := [demoRecord 0] } : PgState) ≠ { table := [] } ∧
    ({ table := [demoRecord 0] } : PgState) ≠ { table := [demoRecord 0, demoRecord 1] } :=
  ⟨rfl, by decide, by decide⟩

/-- C7: evidence content longer than the configured maximum makes
storeEvidence fail with the capacity error and perform no write at all:
the returned state is the input state, so the evidence count, the total
evidence size and getStats().evidenceCount are unchanged. -/
theorem storeEvidence_size_exceeded (CH : String → String)
    (input : EvidenceInput) (st : SvcState)
    (hen : st.cfg.enableEvidenceStorage = true)
    (hsz : jsOr st.cfg.maxEvidenceSize (10 * 1024 * 1024) < input.content.length) :
    storeEvidence CH input st = (Except.error "Evidence size exceeds maximum", st) ∧
    evCount (storeEvidence CH input st).2.evidence = evCount st.evidence ∧
    evTotalSize (storeEvidence CH input st).2.evidence = evTotalSize st.evidence ∧
    statsEvidenceCount (storeEvidence CH input st).2 = statsEvidenceCount st := by
  have heq : storeEvidence CH input st
      = (Except.error "Evidence size exceeds maximum", st) := by
    unfold storeEvidence
    rw [if_neg (by simp [hen]), if_pos hsz]
  exact ⟨heq, by rw [heq], by rw [heq], by rw [heq]⟩

theorem storeEvidence_size_exceeded_witness :
    storeEvidence id bigEvInput (freshState smallCfg)
        = (Except.error "Evidence size exceeds maximum", freshState smallCfg) ∧
    statsEvidenceCount (storeEvidence id bigEvInput (freshState smallCfg)).2
        = statsEvidenceCount (freshState smallCfg) := by
  have hlen : bigEvInput.content.length = 2048 := by
    show (String.mk (List.replicate 2048 'a')).length = 2048
    rw [String.length_mk, List.length_replicate]
  have h := storeEvidence_size_exceeded id bigEvInput (freshState smallCfg)
    rfl (by rw [hlen]; decide)
  exact ⟨h.1, h.2.2.2⟩

/-! ### Map lemmas -/

theorem find_replaceKey [DecidableEq κ] (k : κ) (v : α) :
    ∀ m : List (κ × α), m.any (fun p => p.1 = k) = true →
      (m.map (fun p => if p.1 = k then (k, v) else p)).find?
        (fun p => p.1 = k) = some (k, v)
  | [], h => by simp at h
  | p :: m, h => by
    by_cases hp : p.1 = k
    · simp [hp, List.find?]
    · have hm : m.any (fun p => p.1 = k) = true := by
        simpa [List.any_cons, hp] using h
      simpa [hp, List.find?] using find_replaceKey k v m hm

theorem mapGet_mapSet [DecidableEq κ] (k : κ) (v : α) (m : List (κ × α)) :
    mapGet k (mapSet k v m) = some v := by
  unfold mapGet mapSet
  by_cases h : m.any (fun p => p.1 = k)
  · rw [if_pos h, find_replaceKey k v m h]; rfl
  · rw [if_neg h, List.find?_append]
    have hn : m.find? (fun p => decide (p.1 = k)) = none := by
      rw [List.find?_eq_none]
      intro x hx hk
      exact h (List.any_eq_true.mpr ⟨x, hx, hk⟩)
    simp [hn, List.find?]

/-- C8: accepted evidence round-trips: storeEvidence succeeds, and
getEvidence with the returned id (whose reconstructed locator equals the
returned storageRef) yields byte-identical content whose recomputed
content hash equals the hash captured at store time. -/
theorem evidence_roundtrip (CH : String → String) (input : EvidenceInput)
    (st : SvcState)
    (hen : st.cfg.enableEvidenceStorage = true)
    (hsz : input.content.length ≤ jsOr st.cfg.maxEvidenceSize (10 * 1024 * 1024)) :
    ∃ att st2, storeEvidence CH input st = (Except.ok att, st2) ∧
      att.contentHash = CH input.content ∧
      att.storageRef = "memory://" ++ toString att.id ∧
      ∃ d, getEvidence CH att.id st2 = some d ∧
        d.content = input.content ∧ d.contentHash = att.contentHash := by
  unfold storeEvidence
  rw [if_neg (by simp [hen]), if_neg (by omega)]
  simp only []
  refine ⟨_, _, rfl, rfl, rfl, ?_⟩
  unfold getEvidence evRetrieve evStore
  simp only [mapGet_mapSet, Option.map_some]
  exact ⟨_, rfl, rfl, rfl⟩

theorem evidence_roundtrip_witness :
    ∃ att st2,
      storeEvidence id smallEvInput (freshState defCfg) = (Except.ok att, st2) ∧
      att.contentHash = id smallEvInput.content ∧
      att.storageRef = "memory://" ++ toString att.id ∧
      ∃ d, getEvidence id att.id st2 = some d ∧
        d.content = smallEvInput.content ∧ d.contentHash = att.contentHash :=
  evidence_roundtrip id smallEvInput (freshState defCfg) rfl (by decide)

/-- C10: when the filter omits limit and offset, both backends default to
limit 100 and offset 0: the in-memory result is the first 100 matches (at
most 100 records even when more match), and the relational query is built
with the clause LIMIT 100 OFFSET 0. -/
theorem query_default_limit (q : AuditQuery) (st : SvcState)
    (hl : q.limit = none) (ho : q.offset = none) :
    (queryEvents q st).1.length = min 100 (matchSet q (flushBatch st).storage).length ∧
    (queryEvents q st).1.length ≤ 100 ∧
    pgLimitClause q = "LIMIT 100 OFFSET 0" := by
  have h1 : (queryEvents q st).1 = (matchSet q (flushBatch st).storage).take 100 := by
    simp [queryEvents, memQuery, paginate, hl, ho, jsOr]
  refine ⟨by rw [h1, List.length_take], ?_, ?_⟩
  · rw [h1]; simpa using List.length_take_le 100 _
  · rw [pgLimitClause, hl, ho]; rfl

theorem query_default_limit_witness :
    (queryEvents {} (freshState defCfg)).1.length
        = min 100 (matchSet {} (flushBatch (freshState defCfg)).storage).length ∧
    (queryEvents {} (freshState defCfg)).1.length ≤ 100 ∧
    pgLimitClause {} = "LIMIT 100 OFFSET 0" :=
  query_default_limit {} (freshState defCfg) rfl rfl

/-! ### Export lemmas -/

theorem memQuery_page (q : AuditQuery) (s : MemoryStorage) (o : Nat) :
    memQuery { q with limit := some 100, offset := some o } s
      = ((matchSet q s).drop o).take 100 := by
  have hm : matchSet { q with limit := some 100, offset := some o } s
      = matchSet q s := rfl
  simp only [memQuery, hm, paginate]
  by_cases h0 : o = 0 <;> simp [jsOr, h0]

theorem exportLoop_eq (q : AuditQuery) (s : MemoryStorage) :
    ∀ (n o : Nat), (matchSet q s).length - o ≤ n →
      exportLoop q s o = (matchSet q s).drop o := by
  intro n
  induction n with
  | zero =>
    intro o ho
    have hd : (matchSet q s).drop o = [] :=
      List.drop_eq_nil_of_le (by omega)
    rw [exportLoop, memQuery_page, hd]
    simp
  | succ n ih =>
    intro o ho
    rw [exportLoop, memQuery_page]
    by_cases h : (((matchSet q s).drop o).take 100).length = 100
    · rw [dif_pos h, ih (o + 100) ?_]
      · rw [show (matchSet q s).drop (o + 100)
              = ((matchSet q s).drop o).drop 100 by rw [List.drop_drop]]
        exact List.take_append_drop 100 _
      · have h100 : 100 ≤ (matchSet q s).length - o := by
          rw [List.length_take, List.length_drop] at h
          omega
        omega
    · rw [dif_neg h]
      have : ((matchSet q s).drop o).length ≤ 100 := by
        rw [List.length_take, List.length_drop] at h
        rw [List.length_drop]
        omega
      exact List.take_of_length_le this

/-- C6: exportEvents terminates and the concatenation of its fixed-size
pages (page size 100, stopping at the first short page) is exactly the
full filtered, ordered match set for the filter, independent of the
filter's own limit/offset; moreover restarting the page loop at any
offset yields precisely the records from that offset on. -/
theorem export_collects_full (q : AuditQuery) (st : SvcState) :
    (exportEvents q st).1 = matchSet q (flushBatch st).storage ∧
    ∀ o, exportLoop q (flushBatch st).storage o
        = (matchSet q (flushBatch st).storage).drop o := by
  constructor
  · have h := exportLoop_eq q (flushBatch st).storage
      ((matchSet q (flushBatch st).storage).length) 0 (by omega)
    simpa [exportEvents] using h
  · intro o
    exact exportLoop_eq q (flushBatch st).storage
      ((matchSet q (flushBatch st).storage).length) o (by omega)

/-! ### Filter-stage lemmas -/

theorem mem_filterEventTypes {q : AuditQuery} {l : List AuditRecord}
    {r : AuditRecord} (h : r ∈ filterEventTypes q l) :
    r ∈ l ∧ ∀ ts, q.eventTypes = some ts → ts ≠ [] → r.eventType ∈ ts := by
  unfold filterEventTypes at h
  split at h
  next ts heq =>
    split at h
    next he =>
      refine ⟨h, ?_⟩
      intro ts2 h2 hne
      rw [heq] at h2; injection h2 with e; subst e
      exact absurd (List.isEmpty_iff.mp he) hne
    next he =>
      rw [List.mem_filter] at h
      refine ⟨h.1, ?_⟩
      intro ts2 h2 _
      rw [heq] at h2; injection h2 with e; subst e
      exact List.mem_of_elem_eq_true h.2
  next heq =>
    exact ⟨h, by intro ts2 h2; rw [heq] at h2; cases h2⟩

theorem mem_filterCategories {q : AuditQuery} {l : List AuditRecord}
    {r : AuditRecord} (h : r ∈ filterCategories q l) :
    r ∈ l ∧ ∀ cs, q.categories = some cs → cs ≠ [] → r.category ∈ cs := by
  unfold filterCategories at h
  split at h
  next cs heq =>
    split at h
    next he =>
      refine ⟨h, ?_⟩
      intro cs2 h2 hne
      rw [heq] at h2; injection h2 with e; subst e
      exact absurd (List.isEmpty_iff.mp he) hne
    next he =>
      rw [List.mem_filter] at h
      refine ⟨h.1, ?_⟩
      intro cs2 h2 _
      rw [heq] at h2; injection h2 with e; subst e
      exact List.mem_of_elem_eq_true h.2
  next heq =>
    exact ⟨h, by intro cs2 h2; rw [heq] at h2; cases h2⟩

theorem mem_filterSeverities {q : AuditQuery} {l : List AuditRecord}
    {r : AuditRecord} (h : r ∈ filterSeverities q l) :
    r ∈ l ∧ ∀ ss, q.severities = some ss → ss ≠ [] → r.severity ∈ ss := by
  unfold filterSeverities at h
  split at h
  next ss heq =>
    split at h
    next he =>
      refine ⟨h, ?_⟩
      intro ss2 h2 hne
      rw [heq] at h2; injection h2 with e; subst e
      exact absurd (List.isEmpty_iff.mp he) hne
    next he =>
      rw [List.mem_filter] at h
      refine ⟨h.1, ?_⟩
      intro ss2 h2 _
      rw [heq] at h2; injection h2 with e; subst e
      exact List.mem_of_elem_eq_true h.2
  next heq =>
    exact ⟨h, by intro ss2 h2; rw [heq] at h2; cases h2⟩

theorem mem_filterActor {q : AuditQuery} {l : List AuditRecord}
    {r : AuditRecord} (h : r ∈ filterActor q l) :
    r ∈ l ∧ ∀ a, strTruthy q.actorId = some a →
      ∃ act, r.actor = some act ∧ act.id = a := by
  unfold filterActor at h
  split at h
  next a heq =>
    rw [List.mem_filter] at h
    refine ⟨h.1, ?_⟩
    intro a2 h2
    rw [heq] at h2; injection h2 with e; subst e
    have hb := h.2
    split at hb
    next act hact => exact ⟨act, hact, by simpa using hb⟩
    next => cases hb
  next heq =>
    exact ⟨h, by intro a2 h2; rw [heq] at h2; cases h2⟩

theorem corrMatch_axes {c : AuditCorrelationIds} {r : AuditRecord}
    (h : corrMatch c r = true) :
    (∀ v, strTruthy c.transactionId = some v → r.correlationIds.transactionId = some v) ∧
    (∀ v, strTruthy c.entityId = some v → r.correlationIds.entityId = some v) ∧
    (∀ v, strTruthy c.ruleId = some v → r.correlationIds.ruleId = some v) ∧
    (∀ v, strTruthy c.alertId = some v → r.correlationIds.alertId = some v) ∧
    (∀ v, strTruthy c.requestId = some v → r.correlationIds.requestId = some v) := by
  rw [corrMatch] at h
  simp only [Bool.and_eq_true] at h
  obtain ⟨⟨⟨⟨h1, h2⟩, h3⟩, h4⟩, h5⟩ := h
  refine ⟨?_, ?_, ?_, ?_, ?_⟩ <;> intro v hv
  · rw [hv] at h1; simpa using h1
  · rw [hv] at h2; simpa using h2
  · rw [hv] at h3; simpa using h3
  · rw [hv] at h4; simpa using h4
  · rw [hv] at h5; simpa using h5

theorem mem_filterCorr {q : AuditQuery} {l : List AuditRecord}
    {r : AuditRecord} (h : r ∈ filterCorr q l) :
    r ∈ l ∧ ∀ c, q.correlationIds = some c → corrMatch c r = true := by
  unfold filterCorr at h
  split at h
  next c heq =>
    rw [List.mem_filter] at h
    refine ⟨h.1, ?_⟩
    intro c2 h2
    rw [heq] at h2; injection h2 with e; subst e
    exact h.2
  next heq =>
    exact ⟨h, by intro c2 h2; rw [heq] at h2; cases h2⟩

theorem mem_filterFrom {q : AuditQuery} {l : List AuditRecord}
    {r : AuditRecord} (h : r ∈ filterFrom q l) :
    r ∈ l ∧ ∀ t, q.fromTimestamp = some t → t ≤ r.timestamp := by
  unfold filterFrom at h
  split at h
  next t heq =>
    rw [List.mem_filter] at h
    refine ⟨h.1, ?_⟩
    intro t2 h2
    rw [heq] at h2; injection h2 with e; subst e
    simpa using h.2
  next heq =>
    exact ⟨h, by intro t2 h2; rw [heq] at h2; cases h2⟩

theorem mem_filterTo {q : AuditQuery} {l : List AuditRecord}
    {r : AuditRecord} (h : r ∈ filterTo q l) :
    r ∈ l ∧ ∀ t, q.toTimestamp = some t → r.timestamp < t := by
  unfold filterTo at h
  split at h
  next t heq =>
    rw [List.mem_filter] at h
    refine ⟨h.1, ?_⟩
    intro t2 h2
    rw [heq] at h2; injection h2 with e; subst e
    simpa using h.2
  next heq =>
    exact ⟨h, by intro t2 h2; rw [heq] at h2; cases h2⟩

theorem mem_sortRecords {q : AuditQuery} {l : List AuditRecord}
    {r : AuditRecord} (h : r ∈ sortRecords q l) : r ∈ l := by
  unfold sortRecords at h
  split at h <;> exact List.mem_mergeSort.mp h

theorem mem_paginate {q : AuditQuery} {l : List AuditRecord}
    {r : AuditRecord} (h : r ∈ paginate q l) : r ∈ l := by
  unfold paginate at h
  exact (List.drop_sublist _ _).subset ((List.take_sublist _ _).subset h)

/-- C5 (amended): a record returned by queryEvents satisfies every
constraint of the filter that the backend checks: event-type, category,
severity and actor-id filters, the transaction/entity/rule/alert/request
correlation axes, and the half-open time range; the result respects the
requested ordering and never exceeds the effective limit.  (The session
and external correlation axes are not checked; see the counterexample.) -/
theorem query_honors_checked_filters (q : AuditQuery) (st : SvcState) :
    (∀ r ∈ (queryEvents q st).1, SatisfiesChecked q r) ∧
    (q.orderBy = some "timestamp_asc" →
      (queryEvents q st).1.Pairwise (fun a b => a.timestamp ≤ b.timestamp)) ∧
    (q.orderBy ≠ some "timestamp_asc" →
      (queryEvents q st).1.Pairwise (fun a b => b.timestamp ≤ a.timestamp)) ∧
    (queryEvents q st).1.length ≤ jsOr q.limit 100 := by
  have hres : (queryEvents q st).1
      = paginate q (sortRecords q (filteredRecords q
          (memValues (flushBatch st).storage))) := rfl
  refine ⟨?_, ?_, ?_, ?_⟩
  · intro r hr
    rw [hres] at hr
    have h1 := mem_sortRecords (mem_paginate hr)
    unfold filteredRecords at h1
    obtain ⟨h2, hto⟩ := mem_filterTo h1
    obtain ⟨h3, hfrom⟩ := mem_filterFrom h2
    obtain ⟨h4, hcorr⟩ := mem_filterCorr h3
    obtain ⟨h5, hact⟩ := mem_filterActor h4
    obtain ⟨h6, hsev⟩ := mem_filterSeverities h5
    obtain ⟨h7, hcat⟩ := mem_filterCategories h6
    obtain ⟨_, hevt⟩ := mem_filterEventTypes h7
    exact ⟨hevt, hcat, hsev, hact,
      fun c hc => corrMatch_axes (hcorr c hc), hfrom, hto⟩
  · intro ho
    rw [hres]
    have hs : (sortRecords q (filteredRecords q
        (memValues (flushBatch st).storage))).Pairwise
        (fun a b => ascLe a b = true) := by
      unfold sortRecords
      rw [if_pos ho]
      exact List.sorted_mergeSort
        (by intro a b c; simp only [ascLe, decide_eq_true_eq]; omega)
        (by intro a b; simp only [ascLe]; by_cases h : a.timestamp ≤ b.timestamp <;>
          simp [h] <;> omega) _
    have hp : (paginate q (sortRecords q (filteredRecords q
        (memValues (flushBatch st).storage)))).Pairwise
        (fun a b => ascLe a b = true) :=
      List.Pairwise.sublist ((List.take_sublist _ _).trans (List.drop_sublist _ _)) hs
    exact hp.imp (by intro a b h; simpa [ascLe] using h)
  · intro ho
    rw [hres]
    have hs : (sortRecords q (filteredRecords q
        (memValues (flushBatch st).storage))).Pairwise
        (fun a b => descLe a b = true) := by
      unfold sortRecords
      rw [if_neg ho]
      exact List.sorted_mergeSort
        (by intro a b c; simp only [descLe, decide_eq_true_eq]; omega)
        (by intro a b; simp only [descLe]; by_cases h : b.timestamp ≤ a.timestamp <;>
          simp [h] <;> omega) _
    have hp : (paginate q (sortRecords q (filteredRecords q
        (memValues (flushBatch st).storage)))).Pairwise
        (fun a b => descLe a b = true) :=
      List.Pairwise.sublist ((List.take_sublist _ _).trans (List.drop_sublist _ _)) hs
    exact hp.imp (by intro a b h; simpa [descLe] using h)
  · rw [hres]
    unfold paginate
    simpa using List.length_take_le _ _

theorem query_honors_checked_filters_witness :
    (∀ r ∈ (queryEvents sessionQuery
        (recordEvent demoHash sessionInput (freshState defCfg)).2).1,
      SatisfiesChecked sessionQuery r) ∧
    (queryEvents sessionQuery
        (recordEvent demoHash sessionInput (freshState defCfg)).2).1.length
      ≤ jsOr sessionQuery.limit 100 := by
  have h := query_honors_checked_filters sessionQuery
    (recordEvent demoHash sessionInput (freshState defCfg)).2
  exact ⟨h.1, h.2.2.2⟩

/-- C5 counterexample: a query whose correlationIds filter names a
session id returns a record whose session id is different — the
in-memory backend never consults the session (or external) axis. -/
theorem query_ignores_sessionId :
    ((queryEvents sessionQuery
        (recordEvent demoHash sessionInput (freshState defCfg)).2).1.map
      (fun r => r.correlationIds.sessionId)) = [some "s1"] ∧
    sessionQuery.correlationIds = some { sessionId := some "other" } ∧
    some "s1" ≠ some "other" := by
  refine ⟨?_, rfl, by decide⟩
  have hres : (queryEvents sessionQuery
      (recordEvent demoHash sessionInput (freshState defCfg)).2).1
      = paginate sessionQuery (sortRecords sessionQuery (filteredRecords sessionQuery
          (memValues (flushBatch
            (recordEvent demoHash sessionInput (freshState defCfg)).2).storage))) := rfl
  have h1 : filteredRecords sessionQuery
      (memValues (flushBatch
        (recordEvent demoHash sessionInput (freshState defCfg)).2).storage)
      = [(recordEvent demoHash sessionInput (freshState defCfg)).1] := by decide
  have h2 : sortRecords sessionQuery
      [(recordEvent demoHash sessionInput (freshState defCfg)).1]
      = [(recordEvent demoHash sessionInput (freshState defCfg)).1] := by
    unfold sortRecords
    rw [if_neg (by simp [sessionQuery]), List.mergeSort_singleton]
  rw [hres, h1, h2]
  decide

/-! ### Hash-chain lemmas -/

theorem goodChain_take (H : HashContent → String) :
    ∀ (l : List AuditRecord) (p : Option String) (n : Nat),
      goodChain H p l → goodChain H p (l.take n)
  | [], _, n, h => by simpa [List.take_nil] using h
  | _ :: _, _, 0, _ => by simp [goodChain]
  | r :: rs, p, n + 1, h => by
    obtain ⟨h1, h2, h3⟩ := h
    exact ⟨h1, h2, goodChain_take H rs _ n h3⟩

theorem goodChain_elem (H : HashContent → String) :
    ∀ (l : List AuditRecord) (p : Option String), goodChain H p l →
      ∀ r ∈ l, r.recordHash = H (contentOf r)
  | [], _, _, r, hr => by cases hr
  | x :: xs, p, h, r, hr => by
    obtain ⟨_, h2, h3⟩ := h
    rcases List.mem_cons.mp hr with he | hm
    · subst he; exact h2
    · exact goodChain_elem H xs _ h3 r hm

theorem verifyLoop_ok (H : HashContent → String) :
    ∀ (l : List AuditRecord) (p : Option String),
      goodChain H p l → verifyLoop H p l = none
  | [], _, _ => rfl
  | r :: rs, p, h => by
    obtain ⟨h1, h2, h3⟩ := h
    unfold verifyLoop
    rw [if_neg (by simp [h1]), if_neg (by simp [h2])]
    exact verifyLoop_ok H rs _ h3

theorem chainEnd_nil (p : Option String) : chainEnd p [] = p := rfl

theorem chainEnd_cons (p : Option String) (r : AuditRecord)
    (rs : List AuditRecord) :
    chainEnd p (r :: rs) = chainEnd (some r.recordHash) rs := by
  unfold chainEnd
  cases rs <;> simp [List.getLast?]

theorem chainEnd_concat (p : Option String) (l : List AuditRecord)
    (r : AuditRecord) : chainEnd p (l ++ [r]) = some r.recordHash := by
  unfold chainEnd
  rw [List.getLast?_concat]

theorem goodChain_append (H : HashContent → String) :
    ∀ (l m : List AuditRecord) (p : Option String),
      goodChain H p l → goodChain H (chainEnd p l) m → goodChain H p (l ++ m)
  | [], m, p, _, hm => by simpa [chainEnd_nil] using hm
  | r :: rs, m, p, hl, hm => by
    obtain ⟨h1, h2, h3⟩ := hl
    exact ⟨h1, h2, goodChain_append H rs m _ h3 (by rwa [chainEnd_cons] at hm)⟩

/-! ### Storage lemmas under fresh ids -/

theorem memInsert_records_fresh (r : AuditRecord) (s : MemoryStorage)
    (hf : ∀ p ∈ s.records, p.1 ≠ r.id) :
    (memInsert r s).records = s.records ++ [(r.id, r)] := by
  unfold memInsert mapSet
  rw [if_neg ?_]
  intro hcon
  obtain ⟨p, hp, he⟩ := List.any_eq_true.mp hcon
  exact hf p hp (by simpa using he)

theorem memInsertBatch_records_fresh :
    ∀ (rs : List AuditRecord) (s : MemoryStorage),
      (∀ r ∈ rs, ∀ p ∈ s.records, p.1 ≠ r.id) →
      rs.Pairwise (fun a b => a.id ≠ b.id) →
      (memInsertBatch rs s).records
        = s.records ++ rs.map (fun r => (r.id, r))
  | [], s, _, _ => by simp [memInsertBatch]
  | r :: rs, s, hf, hp => by
    have h1 : (memInsert r s).records = s.records ++ [(r.id, r)] :=
      memInsert_records_fresh r s (fun p hp2 => hf r (by simp) p hp2)
    have hstep : memInsertBatch (r :: rs) s = memInsertBatch rs (memInsert r s) := rfl
    have hf2 : ∀ r2 ∈ rs, ∀ p ∈ (memInsert r s).records, p.1 ≠ r2.id := by
      intro r2 hr2 p hp2
      rw [h1] at hp2
      rcases List.mem_append.mp hp2 with hold | hnew
      · exact hf r2 (by simp [hr2]) p hold
      · have hpe : p = (r.id, r) := by simpa using hnew
        subst hpe
        exact (List.pairwise_cons.mp hp).1 r2 hr2
    rw [hstep, memInsertBatch_records_fresh rs (memInsert r s) hf2
        (List.pairwise_cons.mp hp).2, h1]
    simp

/-! ### The flush and recordEvent steps preserve the invariant -/

theorem flushBatch_facts (H : HashContent → String) (st : SvcState)
    (hinv : Inv H st) :
    chainAll (flushBatch st) = chainAll st ∧
    (flushBatch st).batchQueue = [] ∧
    memValues (flushBatch st).storage = chainAll st ∧
    (flushBatch st).cfg = st.cfg ∧
    (flushBatch st).lastHash = st.lastHash ∧
    (flushBatch st).nextId = st.nextId ∧
    (flushBatch st).clock = st.clock ∧
    (flushBatch st).evidence = st.evidence ∧
    Inv H (flushBatch st) := by
  by_cases hq : st.batchQueue.isEmpty = true
  · have hfl : flushBatch st = st := by unfold flushBatch; rw [if_pos hq]
    have hqe : st.batchQueue = [] := List.isEmpty_iff.mp hq
    rw [hfl]
    exact ⟨rfl, hqe, by simp [chainAll, hqe], rfl, rfl, rfl, rfl, rfl, hinv⟩
  · have hfl : flushBatch st
        = { st with batchQueue := [],
                    storage := memInsertBatch st.batchQueue st.storage } := by
      unfold flushBatch; rw [if_neg hq]
    have hsplit := List.pairwise_append.mp hinv.idStrict
    have hfresh : ∀ r ∈ st.batchQueue, ∀ p ∈ st.storage.records, p.1 ≠ r.id := by
      intro r hr p hp
      rw [hinv.keyVal p hp]
      have hmem : p.2 ∈ memValues st.storage := List.mem_map_of_mem _ hp
      exact Nat.ne_of_lt (hsplit.2.2 p.2 hmem r hr)
    have hqpair : st.batchQueue.Pairwise (fun a b => a.id ≠ b.id) :=
      hsplit.2.1.imp Nat.ne_of_lt
    have hrec := memInsertBatch_records_fresh st.batchQueue st.storage hfresh hqpair
    have hvals : memValues (memInsertBatch st.batchQueue st.storage)
        = memValues st.storage ++ st.batchQueue := by
      unfold memValues
      rw [hrec, List.map_append, List.map_map]
      exact congrArg (memValues st.storage ++ ·) (List.map_id _)
    have hAll : chainAll (flushBatch st) = chainAll st := by
      rw [hfl]; simp [chainAll, hvals]
    refine ⟨hAll, by rw [hfl], by rw [hfl]; simpa [chainAll] using hvals,
      by rw [hfl], by rw [hfl], by rw [hfl], by rw [hfl], by rw [hfl], ?_⟩
    refine ⟨?_, ?_, ?_, ?_, ?_, ?_, ?_, ?_⟩
    · rw [hAll]; exact hinv.chain
    · rw [hAll, hfl]; exact hinv.head
    · rw [hAll]; exact hinv.tsStrict
    · rw [hAll, hfl]; exact hinv.tsBound
    · rw [hAll]; exact hinv.idStrict
    · rw [hAll, hfl]; exact hinv.idBound
    · rw [hfl]
      intro p hp
      rw [hrec] at hp
      rcases List.mem_append.mp hp with hold | hnew
      · exact hinv.keyBound p hold
      · obtain ⟨r, hr, hpe⟩ := List.mem_map.mp hnew
        subst hpe
        exact hinv.idBound r (by simp [chainAll, hr])
    · rw [hfl]
      intro p hp
      rw [hrec] at hp
      rcases List.mem_append.mp hp with hold | hnew
      · exact hinv.keyVal p hold
      · obtain ⟨r, hr, hpe⟩ := List.mem_map.mp hnew
        subst hpe
        rfl

theorem pushState_facts (H : HashContent → String) (input : AuditRecordInput)
    (st : SvcState) (hc : st.cfg.enableHashChaining = true)
    (hinv : Inv H st) :
    chainAll (pushState H input st) = chainAll st ++ [newRecord H input st] ∧
    Inv H (pushState H input st) := by
  have hAll : chainAll (pushState H input st)
      = chainAll st ++ [newRecord H input st] := by
    simp [chainAll, pushState]
  have hrecPrev : (newRecord H input st).previousHash = st.lastHash := by
    simp [newRecord, hc]
  have hrecHash : (newRecord H input st).recordHash
      = H (contentOf (newRecord H input st)) := by
    simp [newRecord, contentOf, newContent, hc]
  have hrecTs : (newRecord H input st).timestamp = st.clock := rfl
  have hrecId : (newRecord H input st).id = st.nextId := rfl
  refine ⟨hAll, ?_, ?_, ?_, ?_, ?_, ?_, ?_, ?_⟩
  · rw [hAll]
    refine goodChain_append H _ _ _ hinv.chain ?_
    exact ⟨by rw [hrecPrev, hinv.head], hrecHash, trivial⟩
  · rw [hAll]
    show (pushState H input st).lastHash = _
    rw [chainEnd_concat]
    simp only [pushState, hc, if_true]
    rfl
  · rw [hAll, List.pairwise_append]
    refine ⟨hinv.tsStrict, by simp, ?_⟩
    intro a ha b hb
    rw [List.mem_singleton.mp hb, hrecTs]
    exact hinv.tsBound a ha
  · rw [hAll]
    intro r hr
    show r.timestamp < st.clock + 1
    rcases List.mem_append.mp hr with hold | hnew
    · have := hinv.tsBound r hold; omega
    · rw [List.mem_singleton.mp hnew, hrecTs]; omega
  · rw [hAll, List.pairwise_append]
    refine ⟨hinv.idStrict, by simp, ?_⟩
    intro a ha b hb
    rw [List.mem_singleton.mp hb, hrecId]
    exact hinv.idBound a ha
  · rw [hAll]
    intro r hr
    show r.id < st.nextId + 1
    rcases List.mem_append.mp hr with hold | hnew
    · have := hinv.idBound r hold; omega
    · rw [List.mem_singleton.mp hnew, hrecId]; omega
  · intro p hp
    show p.1 < st.nextId + 1
    have := hinv.keyBound p hp; omega
  · exact hinv.keyVal

theorem recordEvent_facts (H : HashContent → String) (input : AuditRecordInput)
    (st : SvcState) (hc : st.cfg.enableHashChaining = true)
    (hinv : Inv H st) :
    Inv H (recordEvent H input st).2 ∧
    chainAll (recordEvent H input st).2
      = chainAll st ++ [(recordEvent H input st).1] ∧
    (recordEvent H input st).2.cfg = st.cfg ∧
    (recordEvent H input st).1.data = input.data := by
  obtain ⟨hAll1, hinv1⟩ := pushState_facts H input st hc hinv
  have hre : recordEvent H input st
      = (newRecord H input st,
         if jsOr st.cfg.batchInsertSize 100
            ≤ (pushState H input st).batchQueue.length
         then flushBatch (pushState H input st)
         else pushState H input st) := rfl
  rw [hre]
  by_cases hcond : jsOr st.cfg.batchInsertSize 100
      ≤ (pushState H input st).batchQueue.length
  · rw [if_pos hcond]
    obtain ⟨hA, _, _, hcfg, _, _, _, _, hinvF⟩ :=
      flushBatch_facts H (pushState H input st) hinv1
    refine ⟨hinvF, ?_, ?_, rfl⟩
    · simpa [hAll1] using hA
    · rw [hcfg]; rfl
  · rw [if_neg hcond]
    exact ⟨hinv1, hAll1, rfl, rfl⟩

theorem inv_fresh (H : HashContent → String) (cfg : AuditConfig) :
    Inv H (freshState cfg) := by
  refine ⟨?_, ?_, ?_, ?_, ?_, ?_, ?_, ?_⟩ <;>
    simp [freshState, chainAll, memValues, MemoryStorage.empty, goodChain,
      chainEnd, List.getLast?]

theorem runEvents_facts (H : HashContent → String) :
    ∀ (inputs : List AuditRecordInput) (st : SvcState),
      st.cfg.enableHashChaining = true → Inv H st →
      Inv H (runEvents H inputs st) ∧
      (runEvents H inputs st).cfg = st.cfg ∧
      (chainAll (runEvents H inputs st)).length
        = (chainAll st).length + inputs.length ∧
      (∀ r ∈ chainAll (runEvents H inputs st),
        r ∈ chainAll st ∨ r.data ∈ inputs.map (fun i => i.data))
  | [], st, _, hinv => ⟨hinv, rfl, by simp [runEvents], by
      intro r hr; exact Or.inl (by simpa [runEvents] using hr)⟩
  | i :: is, st, hc, hinv => by
    obtain ⟨hinv2, hA2, hcfg2, hdata2⟩ := recordEvent_facts H i st hc hinv
    have hstep : runEvents H (i :: is) st
        = runEvents H is (recordEvent H i st).2 := rfl
    have hc2 : (recordEvent H i st).2.cfg.enableHashChaining = true := by
      rw [hcfg2]; exact hc
    obtain ⟨hi1, hi2, hi3, hi4⟩ :=
      runEvents_facts H is (recordEvent H i st).2 hc2 hinv2
    refine ⟨by rwa [hstep], by rw [hstep, hi2, hcfg2], ?_, ?_⟩
    · rw [hstep, hi3, hA2]
      simp [Nat.add_assoc, Nat.add_comm 1]
    · intro r hr
      rw [hstep] at hr
      rcases hi4 r hr with hin | hdat
      · rw [hA2] at hin
        rcases List.mem_append.mp hin with hold | hnew
        · exact Or.inl hold
        · right
          rw [List.mem_singleton.mp hnew, hdata2]
          simp
      · right; simp at hdat ⊢; tauto

/-! ### verifyIntegrity on an intact chain -/

theorem pairwise_asc_of_ts_lt {l : List AuditRecord}
    (h : l.Pairwise (fun a b => a.timestamp < b.timestamp)) :
    l.Pairwise (fun a b => ascLe a b = true) :=
  h.imp (by intro a b hab; simp only [ascLe, decide_eq_true_eq]; omega)

theorem verify_query_eq (s : MemoryStorage)
    (hs : (memValues s).Pairwise (fun a b => a.timestamp < b.timestamp)) :
    memQuery { orderBy := some "timestamp_asc", limit := some 10000 } s
      = (memValues s).take 10000 := by
  have hfilt : filteredRecords
      { orderBy := some "timestamp_asc", limit := some 10000 } (memValues s)
      = memValues s := rfl
  have hsort : sortRecords
      { orderBy := some "timestamp_asc", limit := some 10000 } (memValues s)
      = memValues s := by
    unfold sortRecords
    rw [if_pos rfl]
    exact List.mergeSort_of_sorted (pairwise_asc_of_ts_lt hs)
  show paginate _ (sortRecords _ (filteredRecords _ (memValues s))) = _
  rw [hfilt, hsort]
  unfold paginate
  simp [jsOr]

theorem verify_valid (H : HashContent → String) (st : SvcState)
    (hc : st.cfg.enableHashChaining = true) (hinv : Inv H st) :
    (verifyIntegrity H st).1.valid = true ∧
    (verifyIntegrity H st).1.recordsChecked = min (chainAll st).length 10000 ∧
    (verifyIntegrity H st).1.firstInvalidId = none ∧
    memValues (verifyIntegrity H st).2.storage = chainAll st := by
  obtain ⟨hAll, hQ, hVals, _, _, _, _, _, hinvF⟩ := flushBatch_facts H st hinv
  have hverify : verifyIntegrity H st
      = ({ valid := (verifyLoop H none (memQuery
            { orderBy := some "timestamp_asc", limit := some 10000 }
            (flushBatch st).storage)).isNone,
           recordsChecked := (memQuery
            { orderBy := some "timestamp_asc", limit := some 10000 }
            (flushBatch st).storage).length,
           firstInvalidId := verifyLoop H none (memQuery
            { orderBy := some "timestamp_asc", limit := some 10000 }
            (flushBatch st).storage),
           error := none }, flushBatch st) := by
    unfold verifyIntegrity
    rw [if_neg (by simp [hc])]
  have hsorted : (memValues (flushBatch st).storage).Pairwise
      (fun a b => a.timestamp < b.timestamp) := by
    rw [hVals]; exact hinv.tsStrict
  have hq := verify_query_eq (flushBatch st).storage hsorted
  have hloop : verifyLoop H none ((memValues (flushBatch st).storage).take 10000)
      = none := by
    refine verifyLoop_ok H _ none (goodChain_take H _ none 10000 ?_)
    rw [hVals]; exact hinv.chain
  rw [hverify]
  refine ⟨?_, ?_, ?_, hVals⟩
  · simp [hq, hloop]
  · simp only [hq, List.length_take]
    rw [hVals, Nat.min_comm]
  · simp [hq, hloop]

/-- C1 (amended): for every sequence of at most 10000 recordEvent calls
by a single writer on a fresh chained ledger, an unbounded
verifyIntegrity() returns valid=true with recordsChecked equal to the
number of records, and the persisted records form a well-formed hash
chain (every previousHash links to the predecessor's recordHash and
every recordHash is the hash of the record's canonical fields). -/
theorem verify_after_trace (H : HashContent → String) (cfg : AuditConfig)
    (inputs : List AuditRecordInput)
    (hc : cfg.enableHashChaining = true)
    (hn : inputs.length ≤ 10000) :
    (verifyIntegrity H (runEvents H inputs (freshState cfg))).1.valid = true ∧
    (verifyIntegrity H (runEvents H inputs (freshState cfg))).1.recordsChecked
      = inputs.length ∧
    (verifyIntegrity H (runEvents H inputs (freshState cfg))).1.firstInvalidId
      = none ∧
    goodChain H none
      (memValues (verifyIntegrity H
        (runEvents H inputs (freshState cfg))).2.storage) := by
  obtain ⟨hinv, hcfg, hlen, _⟩ :=
    runEvents_facts H inputs (freshState cfg) hc (inv_fresh H cfg)
  have hc2 : (runEvents H inputs (freshState cfg)).cfg.enableHashChaining = true := by
    rw [hcfg]; exact hc
  obtain ⟨hv, hrc, hfi, hvals⟩ := verify_valid H _ hc2 hinv
  have hlen2 : (chainAll (runEvents H inputs (freshState cfg))).length
      = inputs.length := by
    rw [hlen]
    simp [chainAll, freshState, memValues, MemoryStorage.empty]
  refine ⟨hv, ?_, hfi, ?_⟩
  · rw [hrc, hlen2]
    omega
  · rw [hvals]
    exact hinv.chain

theorem verify_after_trace_witness :
    (verifyIntegrity demoHash (runEvents demoHash
      [demoInput, demoInput, demoInput] (freshState defCfg))).1.valid = true ∧
    (verifyIntegrity demoHash (runEvents demoHash
      [demoInput, demoInput, demoInput] (freshState defCfg))).1.recordsChecked = 3 ∧
    (verifyIntegrity demoHash (runEvents demoHash
      [demoInput, demoInput, demoInput] (freshState defCfg))).1.firstInvalidId
      = none ∧
    goodChain demoHash none
      (memValues (verifyIntegrity demoHash (runEvents demoHash
        [demoInput, demoInput, demoInput] (freshState defCfg))).2.storage) :=
  verify_after_trace demoHash defCfg [demoInput, demoInput, demoInput]
    rfl (by decide)

/-- C1 counterexample: after 10001 recordEvent calls, the unbounded
verifyIntegrity() checks only the 10000 records its default-bounded
fetch returns, so recordsChecked is 10000, not N = 10001. -/
theorem verify_cap_10000 :
    (verifyIntegrity demoHash (runEvents demoHash
      (List.replicate 10001 demoInput) (freshState defCfg))).1.valid = true ∧
    (verifyIntegrity demoHash (runEvents demoHash
      (List.replicate 10001 demoInput) (freshState defCfg))).1.recordsChecked
      = 10000 ∧
    (verifyIntegrity demoHash (runEvents demoHash
      (List.replicate 10001 demoInput) (freshState defCfg))).1.recordsChecked
      ≠ 10001 := by
  obtain ⟨hinv, hcfg, hlen, _⟩ := runEvents_facts demoHash
    (List.replicate 10001 demoInput) (freshState defCfg)
    rfl (inv_fresh demoHash defCfg)
  have hc2 : (runEvents demoHash (List.replicate 10001 demoInput)
      (freshState defCfg)).cfg.enableHashChaining = true := by
    rw [hcfg]; rfl
  obtain ⟨hv, hrc, _, _⟩ := verify_valid demoHash _ hc2 hinv
  have h0 : chainAll (freshState defCfg) = [] := rfl
  have hlen2 : (chainAll (runEvents demoHash (List.replicate 10001 demoInput)
      (freshState defCfg))).length = 10001 := by
    rw [hlen, h0]
    norm_num
  rw [hrc, hlen2] at *
  refine ⟨hv, by norm_num, by norm_num⟩

/-! ### Point lookups against the pending batch -/

theorem memInsert_keys_lt (x : AuditRecord) (s : MemoryStorage) (n : Nat)
    (hks : ∀ p ∈ s.records, p.1 < n) (hx : x.id < n) :
    ∀ p ∈ (memInsert x s).records, p.1 < n := by
  intro p hp
  unfold memInsert mapSet at hp
  split at hp
  · obtain ⟨p0, hp0, hpe⟩ := List.mem_map.mp hp
    by_cases he : p0.1 = x.id
    · rw [← hpe]; simpa [he] using hx
    · rw [← hpe]; simpa [he] using hks p0 hp0
  · rcases List.mem_append.mp hp with hold | hnew
    · exact hks p hold
    · have hpe : p = (x.id, x) := by simpa using hnew
      subst hpe; exact hx

theorem memGet_insertBatch_last :
    ∀ (rs : List AuditRecord) (s : MemoryStorage) (r : AuditRecord) (n : Nat),
      (∀ p ∈ s.records, p.1 < n) → (∀ x ∈ rs, x.id < n) → r.id = n →
      memGet n (memInsertBatch (rs ++ [r]) s) = some r
  | [], s, r, n, hks, _, hr => by
    show memGet n (memInsert r s) = some r
    have h1 : (memInsert r s).records = s.records ++ [(r.id, r)] :=
      memInsert_records_fresh r s
        (fun p hp => by rw [hr]; exact Nat.ne_of_lt (hks p hp))
    unfold memGet mapGet
    rw [h1, List.find?_append]
    have hnone : s.records.find? (fun p => decide (p.1 = n)) = none := by
      rw [List.find?_eq_none]
      intro p hp hc
      have := hks p hp
      simp only [decide_eq_true_eq] at hc
      omega
    rw [hnone]
    simp [List.find?, hr]
  | x :: rs, s, r, n, hks, hrs, hr => by
    show memGet n (memInsertBatch (rs ++ [r]) (memInsert x s)) = some r
    exact memGet_insertBatch_last rs (memInsert x s) r n
      (memInsert_keys_lt x s n hks (hrs x (by simp)))
      (fun y hy => hrs y (by simp [hy])) hr

/-- C9: the record returned by recordEvent is immediately visible to
getRecord, which consults the pending batch first and never flushes;
when the batch has room the new record still sits in the pending queue
and storage is untouched. -/
theorem getRecord_sees_pending (H : HashContent → String)
    (input : AuditRecordInput) (st : SvcState) (hwf : WFids st) :
    getRecord (recordEvent H input st).1.id (recordEvent H input st).2
      = some (recordEvent H input st).1 ∧
    (st.batchQueue.length + 1 < jsOr st.cfg.batchInsertSize 100 →
      (recordEvent H input st).2.storage = st.storage ∧
      (recordEvent H input st).1 ∈ (recordEvent H input st).2.batchQueue) := by
  obtain ⟨hq, hk⟩ := hwf
  have hre : recordEvent H input st
      = (newRecord H input st,
         if jsOr st.cfg.batchInsertSize 100
            ≤ (pushState H input st).batchQueue.length
         then flushBatch (pushState H input st)
         else pushState H input st) := rfl
  have hid : (newRecord H input st).id = st.nextId := rfl
  have hqlen : (pushState H input st).batchQueue.length
      = st.batchQueue.length + 1 := by
    simp [pushState]
  rw [hre]
  by_cases hcond : jsOr st.cfg.batchInsertSize 100
      ≤ (pushState H input st).batchQueue.length
  · rw [if_pos hcond]
    constructor
    · have hne : ¬ ((pushState H input st).batchQueue.isEmpty = true) := by
        simp [pushState]
      have hfl : flushBatch (pushState H input st)
          = { pushState H input st with
              batchQueue := [],
              storage := memInsertBatch
                (st.batchQueue ++ [newRecord H input st]) st.storage } := by
        unfold flushBatch
        rw [if_neg hne]
        rfl
      rw [hfl]
      unfold getRecord
      simp only [List.find?_nil]
      exact memGet_insertBatch_last st.batchQueue st.storage
        (newRecord H input st) st.nextId hk hq hid
    · intro hlt
      rw [hqlen] at hcond
      omega
  · rw [if_neg hcond]
    constructor
    · have hfq : (st.batchQueue ++ [newRecord H input st]).find?
          (fun r => r.id = (newRecord H input st).id)
          = some (newRecord H input st) := by
        rw [List.find?_append]
        have h1 : st.batchQueue.find?
            (fun r => decide (r.id = (newRecord H input st).id)) = none := by
          rw [List.find?_eq_none]
          intro x hx hc
          have := hq x hx
          simp only [hid, decide_eq_true_eq] at hc
          omega
        rw [h1]
        simp [List.find?]
      unfold getRecord
      rw [show (pushState H input st).batchQueue
            = st.batchQueue ++ [newRecord H input st] from rfl, hfq]
    · intro _
      refine ⟨rfl, ?_⟩
      show newRecord H input st ∈ st.batchQueue ++ [newRecord H input st]
      simp

theorem getRecord_sees_pending_witness :
    getRecord (recordEvent demoHash demoInput (freshState defCfg)).1.id
        (recordEvent demoHash demoInput (freshState defCfg)).2
      = some (recordEvent demoHash demoInput (freshState defCfg)).1 ∧
    (recordEvent demoHash demoInput (freshState defCfg)).1
      ∈ (recordEvent demoHash demoInput (freshState defCfg)).2.batchQueue := by
  have h := getRecord_sees_pending demoHash demoInput (freshState defCfg)
    (by unfold WFids
        refine ⟨?_, ?_⟩ <;> simp [freshState, MemoryStorage.empty])
  exact ⟨h.1, (h.2 (by decide)).2⟩

/-! ### Tampering with a persisted record -/

theorem length_modifyIdx (f : α → α) :
    ∀ (i : Nat) (l : List α), (modifyIdx f i l).length = l.length
  | i, [] => by cases i <;> rfl
  | 0, _ :: _ => rfl
  | n + 1, x :: xs => by simp [modifyIdx, length_modifyIdx f n xs]

theorem map_modifyIdx (f : α → α) (g : α → β) (hfg : ∀ a, g (f a) = g a) :
    ∀ (i : Nat) (l : List α), (modifyIdx f i l).map g = l.map g
  | i, [] => by cases i <;> rfl
  | 0, x :: xs => by simp [modifyIdx, hfg]
  | n + 1, x :: xs => by simp [modifyIdx, map_modifyIdx f g hfg n xs]

theorem take_modifyIdx (f : α → α) :
    ∀ (n i : Nat) (l : List α), n ≤ i →
      (modifyIdx f i l).take n = l.take n
  | 0, _, _, _ => by simp
  | _ + 1, _, [], _ => by simp [modifyIdx]
  | _ + 1, 0, _ :: _, h => by omega
  | n + 1, i + 1, x :: xs, h => by
    simp only [modifyIdx, List.take_succ_cons]
    rw [take_modifyIdx f n i xs (by omega)]

theorem take_modifyIdx_lt (f : α → α) :
    ∀ (n i : Nat) (l : List α), i < n →
      (modifyIdx f i l).take n = modifyIdx f i (l.take n)
  | 0, _, _, h => by omega
  | _ + 1, i, [], _ => by cases i <;> rfl
  | _ + 1, 0, _ :: _, _ => rfl
  | n + 1, i + 1, x :: xs, h => by
    simp only [modifyIdx, List.take_succ_cons]
    rw [take_modifyIdx_lt f n i xs (by omega)]

theorem map_snd_modifyIdx (f : AuditRecord → AuditRecord) :
    ∀ (i : Nat) (m : List (Nat × AuditRecord)),
      (modifyIdx (fun p => (p.1, f p.2)) i m).map (fun p => p.2)
        = modifyIdx f i (m.map (fun p => p.2))
  | i, [] => by cases i <;> rfl
  | 0, p :: m => by simp [modifyIdx]
  | n + 1, p :: m => by simp [modifyIdx, map_snd_modifyIdx f n m]

theorem memValues_tamper (i : Nat) (f : AuditRecord → AuditRecord)
    (s : MemoryStorage) :
    memValues (tamperStorage i f s) = modifyIdx f i (memValues s) :=
  map_snd_modifyIdx f i s.records

theorem verifyLoop_modify (H : HashContent → String)
    (f : AuditRecord → AuditRecord) :
    ∀ (l : List AuditRecord) (p : Option String) (i : Nat) (r : AuditRecord),
      goodChain H p l → l[i]? = some r →
      (f r).previousHash = r.previousHash →
      (f r).id = r.id →
      H (contentOf (f r)) ≠ (f r).recordHash →
      verifyLoop H p (modifyIdx f i l) = some r.id
  | [], _, i, r, _, hi, _, _, _ => by simp at hi
  | x :: xs, p, 0, r, hg, hi, hprev, hid, hne => by
    have hx : x = r := by simpa using hi
    subst hx
    obtain ⟨h1, _, _⟩ := hg
    show verifyLoop H p (f x :: xs) = some x.id
    unfold verifyLoop
    rw [if_neg (by rw [hprev, h1]; simp), if_pos hne, hid]
  | x :: xs, p, i + 1, r, hg, hi, hprev, hid, hne => by
    obtain ⟨h1, h2, h3⟩ := hg
    show verifyLoop H p (x :: modifyIdx f i xs) = some r.id
    unfold verifyLoop
    rw [if_neg (by simp [h1]), if_neg (by simp [h2])]
    exact verifyLoop_modify H f xs _ i r h3 (by simpa using hi) hprev hid hne

theorem verifyIntegrity_eq (H : HashContent → String) (st : SvcState)
    (hc : st.cfg.enableHashChaining = true) :
    verifyIntegrity H st
      = ({ valid := (verifyLoop H none (memQuery
            { orderBy := some "timestamp_asc", limit := some 10000 }
            (flushBatch st).storage)).isNone,
           recordsChecked := (memQuery
            { orderBy := some "timestamp_asc", limit := some 10000 }
            (flushBatch st).storage).length,
           firstInvalidId := verifyLoop H none (memQuery
            { orderBy := some "timestamp_asc", limit := some 10000 }
            (flushBatch st).storage),
           error := none }, flushBatch st) := by
  unfold verifyIntegrity
  rw [if_neg (by simp [hc])]

theorem traceRecords_facts (H : HashContent → String) (cfg : AuditConfig)
    (inputs : List AuditRecordInput) (hc : cfg.enableHashChaining = true) :
    goodChain H none (traceRecords H cfg inputs) ∧
    (traceRecords H cfg inputs).length = inputs.length ∧
    (traceRecords H cfg inputs).Pairwise
      (fun a b => a.timestamp < b.timestamp) ∧
    (∀ r ∈ traceRecords H cfg inputs,
      r.data ∈ inputs.map (fun i => i.data)) := by
  obtain ⟨hinv, hcfg, hlen, hdata⟩ :=
    runEvents_facts H inputs (freshState cfg) hc (inv_fresh H cfg)
  obtain ⟨_, _, hVals, _, _, _, _, _, _⟩ :=
    flushBatch_facts H (runEvents H inputs (freshState cfg)) hinv
  have htr : traceRecords H cfg inputs
      = chainAll (runEvents H inputs (freshState cfg)) := hVals
  have h0 : chainAll (freshState cfg) = [] := rfl
  refine ⟨by rw [htr]; exact hinv.chain, ?_, by rw [htr]; exact hinv.tsStrict, ?_⟩
  · rw [htr, hlen, h0]
    simp
  · intro r hr
    rw [htr] at hr
    rcases hdata r hr with hin | hd
    · rw [h0] at hin; cases hin
    · exact hd

theorem tamperedVerify_eq (H : HashContent → String) (cfg : AuditConfig)
    (inputs : List AuditRecordInput) (i : Nat) (f : AuditRecord → AuditRecord)
    (r : AuditRecord)
    (hc : cfg.enableHashChaining = true)
    (hi : i < 10000)
    (hr : (traceRecords H cfg inputs)[i]? = some r)
    (hts : ∀ a, (f a).timestamp = a.timestamp)
    (hprev : (f r).previousHash = r.previousHash)
    (hid : (f r).id = r.id)
    (hne : H (contentOf (f r)) ≠ (f r).recordHash) :
    tamperedVerify H cfg inputs i f
      = { valid := false, recordsChecked := min inputs.length 10000,
          firstInvalidId := some r.id, error := none } := by
  obtain ⟨hinv, hcfg, hlen, _⟩ :=
    runEvents_facts H inputs (freshState cfg) hc (inv_fresh H cfg)
  obtain ⟨_, hQF, hVals, hcfgF, _, _, _, _, _⟩ :=
    flushBatch_facts H (runEvents H inputs (freshState cfg)) hinv
  obtain ⟨hgc, hlenT, hsortT, _⟩ := traceRecords_facts H cfg inputs hc
  have hts2 : tamperedVerify H cfg inputs i f
      = (verifyIntegrity H
          { flushBatch (runEvents H inputs (freshState cfg)) with
            storage := tamperStorage i f
              (flushBatch (runEvents H inputs (freshState cfg))).storage }).1 := rfl
  have hc2 : ({ flushBatch (runEvents H inputs (freshState cfg)) with
      storage := tamperStorage i f
        (flushBatch (runEvents H inputs (freshState cfg))).storage }
      : SvcState).cfg.enableHashChaining = true := by
    show (flushBatch (runEvents H inputs (freshState cfg))).cfg.enableHashChaining = true
    rw [hcfgF, hcfg]
    exact hc
  have hfl2 : flushBatch
      { flushBatch (runEvents H inputs (freshState cfg)) with
        storage := tamperStorage i f
          (flushBatch (runEvents H inputs (freshState cfg))).storage }
      = { flushBatch (runEvents H inputs (freshState cfg)) with
          storage := tamperStorage i f
            (flushBatch (runEvents H inputs (freshState cfg))).storage } := by
    unfold flushBatch
    rw [if_pos]
    show (flushBatch (runEvents H inputs (freshState cfg))).batchQueue.isEmpty = true
    rw [hQF]
    rfl
  have hvals2 : memValues (tamperStorage i f
      (flushBatch (runEvents H inputs (freshState cfg))).storage)
      = modifyIdx f i (traceRecords H cfg inputs) := by
    rw [memValues_tamper]
    rfl
  have hmapts : (modifyIdx f i (traceRecords H cfg inputs)).map
      (fun a => a.timestamp) = (traceRecords H cfg inputs).map
      (fun a => a.timestamp) := map_modifyIdx f _ hts i _
  have hsort2 : (modifyIdx f i (traceRecords H cfg inputs)).Pairwise
      (fun a b => a.timestamp < b.timestamp) := by
    have h2 : ((traceRecords H cfg inputs).map (fun a => a.timestamp)).Pairwise
        (fun a b => a < b) := List.pairwise_map.mpr hsortT
    rw [← hmapts] at h2
    exact List.pairwise_map.mp h2
  have hquery := verify_query_eq (tamperStorage i f
      (flushBatch (runEvents H inputs (freshState cfg))).storage)
    (by rw [hvals2]; exact hsort2)
  have htake : (memValues (tamperStorage i f
      (flushBatch (runEvents H inputs (freshState cfg))).storage)).take 10000
      = modifyIdx f i ((traceRecords H cfg inputs).take 10000) := by
    rw [hvals2]
    exact take_modifyIdx_lt f 10000 i _ hi
  have hgc10 : goodChain H none ((traceRecords H cfg inputs).take 10000) :=
    goodChain_take H _ none 10000 hgc
  have hr10 : ((traceRecords H cfg inputs).take 10000)[i]? = some r := by
    rw [List.getElem?_take_of_lt hi]
    exact hr
  have hloop := verifyLoop_modify H f ((traceRecords H cfg inputs).take 10000)
    none i r hgc10 hr10 hprev hid hne
  rw [hts2, verifyIntegrity_eq H _ hc2, hfl2]
  show ({ valid := _, recordsChecked := _, firstInvalidId := _,
          error := none } : IntegrityCheckResult) = _
  rw [hquery, htake, hloop, length_modifyIdx, List.length_take, hlenT,
    Nat.min_comm]
  rfl

/-- C2 (amended): on a chained trace of any length, changing the data,
description or recordHash field of the persisted record at any position
among the first 10000 while the stored hash no longer matches the
recomputed one (for data/description via the absence of a hash
collision; for recordHash by being a genuinely different value) makes
the unbounded verifyIntegrity() report valid=false with firstInvalidId
equal to the tampered record's id (and recordsChecked equal to the size
of its capped fetch).  Tampering beyond the first 10000 records escapes
the unbounded verifier; see the counterexample. -/
theorem tamper_detected (H : HashContent → String) (cfg : AuditConfig)
    (inputs : List AuditRecordInput) (i : Nat) (r : AuditRecord)
    (hc : cfg.enableHashChaining = true)
    (hi : i < 10000)
    (hr : (traceRecords H cfg inputs)[i]? = some r) :
    (∀ d, H (contentOf (setData d r)) ≠ r.recordHash →
      tamperedVerify H cfg inputs i (setData d)
        = { valid := false, recordsChecked := min inputs.length 10000,
            firstInvalidId := some r.id, error := none }) ∧
    (∀ d, H (contentOf (setDescription d r)) ≠ r.recordHash →
      tamperedVerify H cfg inputs i (setDescription d)
        = { valid := false, recordsChecked := min inputs.length 10000,
            firstInvalidId := some r.id, error := none }) ∧
    (∀ h2, h2 ≠ r.recordHash →
      tamperedVerify H cfg inputs i (setRecordHash h2)
        = { valid := false, recordsChecked := min inputs.length 10000,
            firstInvalidId := some r.id, error := none }) := by
  refine ⟨?_, ?_, ?_⟩
  · intro d hd
    exact tamperedVerify_eq H cfg inputs i (setData d) r hc hi hr
      (fun a => rfl) rfl rfl hd
  · intro d hd
    exact tamperedVerify_eq H cfg inputs i (setDescription d) r hc hi hr
      (fun a => rfl) rfl rfl hd
  · intro h2 hh
    have hmem : r ∈ traceRecords H cfg inputs := List.getElem?_mem hr
    have hrh : r.recordHash = H (contentOf r) :=
      goodChain_elem H _ none (traceRecords_facts H cfg inputs hc).1 r hmem
    refine tamperedVerify_eq H cfg inputs i (setRecordHash h2) r hc hi hr
      (fun a => rfl) rfl rfl ?_
    show H (contentOf r) ≠ h2
    rw [← hrh]
    exact fun he => hh (he.symm)

theorem tamper_detected_witness :
    tamperedVerify demoHash defCfg [demoInput, demoInput] 0 (setData "y")
      = { valid := false, recordsChecked := min 2 10000,
          firstInvalidId := some rW.id, error := none } :=
  (tamper_detected demoHash defCfg [demoInput, demoInput] 0 rW rfl
    (by decide) (by decide)).1 "y" (by decide)

theorem tamperedVerify_undetected (H : HashContent → String)
    (cfg : AuditConfig) (inputs : List AuditRecordInput) (i : Nat)
    (f : AuditRecord → AuditRecord)
    (hc : cfg.enableHashChaining = true)
    (hcap : 10000 ≤ i)
    (hts : ∀ a, (f a).timestamp = a.timestamp) :
    (tamperedVerify H cfg inputs i f).valid = true ∧
    (tamperedVerify H cfg inputs i f).firstInvalidId = none := by
  obtain ⟨hinv, hcfg, _, _⟩ :=
    runEvents_facts H inputs (freshState cfg) hc (inv_fresh H cfg)
  obtain ⟨_, hQF, hVals, hcfgF, _, _, _, _, _⟩ :=
    flushBatch_facts H (runEvents H inputs (freshState cfg)) hinv
  obtain ⟨hgc, _, hsortT, _⟩ := traceRecords_facts H cfg inputs hc
  have hts2 : tamperedVerify H cfg inputs i f
      = (verifyIntegrity H
          { flushBatch (runEvents H inputs (freshState cfg)) with
            storage := tamperStorage i f
              (flushBatch (runEvents H inputs (freshState cfg))).storage }).1 := rfl
  have hc2 : ({ flushBatch (runEvents H inputs (freshState cfg)) with
      storage := tamperStorage i f
        (flushBatch (runEvents H inputs (freshState cfg))).storage }
      : SvcState).cfg.enableHashChaining = true := by
    show (flushBatch (runEvents H inputs (freshState cfg))).cfg.enableHashChaining = true
    rw [hcfgF, hcfg]
    exact hc
  have hfl2 : flushBatch
      { flushBatch (runEvents H inputs (freshState cfg)) with
        storage := tamperStorage i f
          (flushBatch (runEvents H inputs (freshState cfg))).storage }
      = { flushBatch (runEvents H inputs (freshState cfg)) with
          storage := tamperStorage i f
            (flushBatch (runEvents H inputs (freshState cfg))).storage } := by
    unfold flushBatch
    rw [if_pos]
    show (flushBatch (runEvents H inputs (freshState cfg))).batchQueue.isEmpty = true
    rw [hQF]
    rfl
  have hvals2 : memValues (tamperStorage i f
      (flushBatch (runEvents H inputs (freshState cfg))).storage)
      = modifyIdx f i (traceRecords H cfg inputs) := by
    rw [memValues_tamper]
    rfl
  have hmapts : (modifyIdx f i (traceRecords H cfg inputs)).map
      (fun a => a.timestamp) = (traceRecords H cfg inputs).map
      (fun a => a.timestamp) := map_modifyIdx f _ hts i _
  have hsort2 : (modifyIdx f i (traceRecords H cfg inputs)).Pairwise
      (fun a b => a.timestamp < b.timestamp) := by
    have h2 : ((traceRecords H cfg inputs).map (fun a => a.timestamp)).Pairwise
        (fun a b => a < b) := List.pairwise_map.mpr hsortT
    rw [← hmapts] at h2
    exact List.pairwise_map.mp h2
  have hquery := verify_query_eq (tamperStorage i f
      (flushBatch (runEvents H inputs (freshState cfg))).storage)
    (by rw [hvals2]; exact hsort2)
  have htake : (memValues (tamperStorage i f
      (flushBatch (runEvents H inputs (freshState cfg))).storage)).take 10000
      = (traceRecords H cfg inputs).take 10000 := by
    rw [hvals2, take_modifyIdx f 10000 i _ hcap]
  have hloop : verifyLoop H none ((traceRecords H cfg inputs).take 10000)
      = none := verifyLoop_ok H _ none (goodChain_take H _ none 10000 hgc)
  rw [hts2, verifyIntegrity_eq H _ hc2, hfl2]
  constructor
  · show (verifyLoop H none _).isNone = true
    rw [hquery, htake, hloop]
    rfl
  · show verifyLoop H none _ = none
    rw [hquery, htake, hloop]

/-- C2 counterexample: in a 10001-record chain, changing the data field
of the record at position 10000 (from "x" to "z", a genuine change) is
not detected: the unbounded verifyIntegrity() still returns valid=true
with no firstInvalidId, because its fetch is capped at 10000 records. -/
theorem tamper_beyond_cap_undetected :
    (traceRecords demoHash defCfg (List.replicate 10001 demoInput)).length
      = 10001 ∧
    ((traceRecords demoHash defCfg
        (List.replicate 10001 demoInput))[10000]?).map (fun r => r.data)
      = some "x" ∧
    "x" ≠ "z" ∧
    (tamperedVerify demoHash defCfg (List.replicate 10001 demoInput) 10000
      (setData "z")).valid = true ∧
    (tamperedVerify demoHash defCfg (List.replicate 10001 demoInput) 10000
      (setData "z")).firstInvalidId = none := by
  obtain ⟨_, hlenT, _, hdataT⟩ := traceRecords_facts demoHash defCfg
    (List.replicate 10001 demoInput) rfl
  have hlen : (traceRecords demoHash defCfg
      (List.replicate 10001 demoInput)).length = 10001 := by
    rw [hlenT]
    norm_num
  have hlt : 10000 < (traceRecords demoHash defCfg
      (List.replicate 10001 demoInput)).length := by omega
  obtain ⟨hval, hfii⟩ := tamperedVerify_undetected demoHash defCfg
    (List.replicate 10001 demoInput) 10000 (setData "z") rfl (by omega)
    (fun a => rfl)
  refine ⟨hlen, ?_, by decide, hval, hfii⟩
  rw [List.getElem?_eq_getElem hlt]
  have hmem := List.getElem_mem hlt
  have hd := hdataT _ hmem
  simp only [List.map_replicate] at hd
  have hx : (traceRecords demoHash defCfg
      (List.replicate 10001 demoInput))[10000].data = "x" :=
    List.eq_of_mem_replicate hd
  show some ((traceRecords demoHash defCfg
      (List.replicate 10001 demoInput))[10000].data) = some "x"
  rw [hx]

end ArkaAudit
